import Mathlib

/-!
Verification of the packaging utilities of the `sqliteai/sqlite-ai` repository:

* `packages/python/download_artifacts.py` — the artifact fetcher,
* `packages/python/setup.py` — the wheel metadata configurator reading `PLAT_NAME`
  from the environment,
* `python-package/setup.py` — the wheel metadata configurator reading `--plat-name`
  from the command line.

The scripts are shallowly embedded below.  The in-scope filesystem state is the
contents of the binaries root directory (`BINARIES_DIR` in the source); a path is
the list of its components relative to that root.  Files and directories are kept
as two finite sets of paths.  The HTTP layer is an oracle mapping a URL to a
status code and to the entry list of the archive served at that URL.  Python
control flow is modelled explicitly: `sys.exit(1)` and an uncaught exception both
terminate the run; fallible filesystem primitives return `Option`, where `none`
is the raised-exception case.  String primitives (`str.lower`, `str.endswith`,
`"gpu" in name`, path splitting) are given executable ASCII models matching the
Python semantics on the ASCII inputs that occur here.
-/

namespace SA

/-- A filesystem path, as the list of its components relative to the binaries
root directory. -/
abbrev FPath := List String

/-- The modelled filesystem: the set of regular files and the set of directories
inside the binaries root directory. -/
structure FS where
  files : Finset FPath
  dirs : Finset FPath
deriving DecidableEq

/-- The binaries root directory right after `shutil.rmtree` + `mkdir`: no files,
no subdirectories. -/
def FS.empty : FS := ⟨∅, ∅⟩

/-- Observable process state of one fetcher run: the filesystem, the lines
printed so far, and the URLs requested so far (in order). -/
structure Sys where
  fs : FS
  printed : List String
  requested : List String
deriving DecidableEq

/-- ASCII model of `str.lower` on a single character. -/
def lowerChar (c : Char) : Char :=
  if 65 ≤ c.toNat ∧ c.toNat ≤ 90 then Char.ofNat (c.toNat + 32) else c

/-- ASCII model of `str.lower`. -/
def lowerStr (s : String) : String := String.mk (s.data.map lowerChar)

/-- Model of `str.endswith`. -/
def endsWithS (s suf : String) : Bool := suf.data.isSuffixOf s.data

/-- Model of Python's substring test `pat in s` on character lists. -/
def hasSub (pat : List Char) : List Char → Bool
  | [] => pat == []
  | c :: cs => pat.isPrefixOf (c :: cs) || hasSub pat cs

/-- Split a character list on `'/'` (the component structure of an archive
member name). -/
def splitSlash : List Char → List (List Char)
  | [] => [[]]
  | c :: cs =>
    let r := splitSlash cs
    if c = '/' then [] :: r else (c :: r.headD []) :: r.tail

/-- The path components of an archive member name. -/
def memberComps (m : String) : List String := (splitSlash m.data).map (fun l => String.mk l)

/-- A member name is normal when every component is a plain name: this is the
shape produced by standard zip tools, and on it `zipfile.ZipFile.extract`
performs no name sanitisation, so the model below is exact. -/
def normalMember (m : String) : Bool :=
  (memberComps m).all (fun c => !(c == "") && !(c == ".") && !(c == ".."))

/-- Python dict literal, as an association list (insertion order, unique keys). -/
def dictGet {α : Type} (d : List (String × α)) (k : String) : Option α :=
  (d.find? (fun kv => kv.fst == k)).map (fun kv => kv.snd)

/-- `REPO` from `download_artifacts.py`. -/
def REPO : String := "sqliteai/sqlite-ai"

/-- `RELEASE_URL` from `download_artifacts.py`. -/
def RELEASE_URL : String := "https://github.com/" ++ REPO ++ "/releases/download"

/-- The `ARTIFACTS` table from `download_artifacts.py`. -/
def ARTIFACTS : List (String × List String) :=
  [("manylinux2014_x86_64", ["ai-linux-cpu-x86_64", "ai-linux-gpu-x86_64"]),
   ("manylinux2014_aarch64", ["ai-linux-cpu-arm64", "ai-linux-gpu-arm64"]),
   ("win_amd64", ["ai-windows-cpu-x86_64", "ai-windows-gpu-x86_64"]),
   ("macosx_10_9_x86_64", ["ai-macos"]),
   ("macosx_11_0_arm64", ["ai-macos"])]

/-- The `BINARY_NAME` table from `download_artifacts.py`. -/
def BINARY_NAME : List (String × String) :=
  [("manylinux2014_x86_64", "ai.so"),
   ("manylinux2014_aarch64", "ai.so"),
   ("win_amd64", "ai.dll"),
   ("macosx_10_9_x86_64", "ai.dylib"),
   ("macosx_11_0_arm64", "ai.dylib")]

/-- The keys of `ARTIFACTS` (and of `BINARY_NAME`). -/
def knownPlatforms : List String :=
  ["manylinux2014_x86_64", "manylinux2014_aarch64", "win_amd64",
   "macosx_10_9_x86_64", "macosx_11_0_arm64"]

/-- The local archive file name `f"{artifact_name}-{version}.zip"`. -/
def zipName (artifactName version : String) : String :=
  artifactName ++ "-" ++ version ++ ".zip"

/-- The download URL `f"{RELEASE_URL}/{version}/{artifact}"`. -/
def urlOf (artifactName version : String) : String :=
  RELEASE_URL ++ "/" ++ version ++ "/" ++ zipName artifactName version

/-- The per-artifact variant subdirectory: `"gpu" if "gpu" in artifact_name else "cpu"`. -/
def variantOf (artifactName : String) : String :=
  if hasSub "gpu".data artifactName.data then "gpu" else "cpu"

/-- The error line printed on a non-200 response. -/
def failMsg (artifactName version : String) (code : Nat) : String :=
  "Failed to download " ++ zipName artifactName version ++ ": " ++ Nat.repr code

/-- `str(BINARIES_DIR)` as printed by `main`, relative to the script directory. -/
def BINARIES_DIR_STR : String := "src/sqliteai/binaries"

/-- The usage message printed when arguments are missing or falsy. -/
def usageMsg : String :=
  "Error: Version is not specified.\nUsage: \n   python3 download_artifacts.py linux_x86_64 \"0.5.9\""

/-- The parent directories `zipfile.ZipFile.extract` has to create for a member
with components `comps` below `out`: the strict, nonempty prefixes of `comps`. -/
def strictParents (out : FPath) (comps : List String) : List FPath :=
  ((List.range comps.length).filter (fun k => 0 < k)).map (fun k => out ++ comps.take k)

/-- `zip_ref.extract(member, out_dir)` for a normal member: create the missing
parent directories and write the member file.  `none` is the raised exception:
a needed parent path already exists as a regular file (`os.makedirs` /
`open` fail), or the target path is an existing directory (`open` fails). -/
def extractMember (fs : FS) (out : FPath) (m : String) : Option FS :=
  let comps := memberComps m
  let target := out ++ comps
  if ∃ p ∈ strictParents out comps, p ∈ fs.files then none
  else if target ∈ fs.dirs then none
  else some ⟨insert target fs.files, fs.dirs ∪ (strictParents out comps).toFinset⟩

/-- `src.rename(dst)` (POSIX `os.rename`) as used in the extraction loop, where
`src` is always the file just extracted.  `none` is the raised exception: the
source file is missing, or the destination is an existing directory. -/
def renameFile (fs : FS) (src dst : FPath) : Option FS :=
  if src ∈ fs.files then
    if dst ∈ fs.dirs then none
    else some ⟨insert dst (fs.files.erase src), fs.dirs⟩
  else none

/-- Path rendering used by the `print(f"Extracted {dst}")` line. -/
def pathStr (p : FPath) : String := String.intercalate "/" p

/-- The member loop of `download_and_extract`: for each member ending in
`bin`, extract it below `out` and rename it to `out ++ [bin]`, printing one
line per extracted member.  The `Bool` is `false` when an exception was raised
partway, in which case the returned state is the state at the raise point. -/
def extractLoop (out : FPath) (bin : String) : List String → FS → FS × List String × Bool
  | [], fs => (fs, [], true)
  | m :: ms, fs =>
    if endsWithS m bin then
      match extractMember fs out m with
      | none => (fs, [], false)
      | some fs1 =>
        match renameFile fs1 (out ++ memberComps m) (out ++ [bin]) with
        | none => (fs1, [], false)
        | some fs2 =>
          let r := extractLoop out bin ms fs2
          (r.1, ("Extracted " ++ pathStr (out ++ [bin])) :: r.2.1, r.2.2)
    else extractLoop out bin ms fs

/-- How one call of `download_and_extract` ends: normal return, `sys.exit(1)`
on a non-200 status, or an uncaught exception from the extraction loop. -/
inductive Outcome where
  | ok
  | exit1
  | exn
deriving DecidableEq

/-- The oracle for the outside world: HTTP status per URL, and the entry list
of the archive served at each URL. -/
structure Oracle where
  status : String → Nat
  namelist : String → List String

/-- `download_and_extract(artifact_name, bin_name, version)`: print and issue
the GET; on a non-200 status print the failure line and `sys.exit(1)`; else
write the archive, ensure the variant subdirectory, run the extraction loop,
and delete the archive.  An exception in the loop propagates: the archive is
not deleted on that path. -/
def download_and_extract (o : Oracle) (s : Sys) (artifact_name bin_name version : String) :
    Sys × Outcome :=
  let artifact := zipName artifact_name version
  let url := urlOf artifact_name version
  let s1 : Sys := ⟨s.fs, s.printed ++ ["Downloading " ++ url], s.requested ++ [url]⟩
  if o.status url ≠ 200 then
    (⟨s1.fs, s1.printed ++ [failMsg artifact_name version (o.status url)], s1.requested⟩, .exit1)
  else
    let fs1 : FS := ⟨insert [artifact] s1.fs.files, s1.fs.dirs⟩
    let out : FPath := [variantOf artifact_name]
    let fs2 : FS := ⟨fs1.files, insert out fs1.dirs⟩
    let r := extractLoop out bin_name (o.namelist url) fs2
    if r.2.2 then
      (⟨⟨r.1.files.erase [artifact], r.1.dirs⟩, s1.printed ++ r.2.1, s1.requested⟩, .ok)
    else
      (⟨r.1, s1.printed ++ r.2.1, s1.requested⟩, .exn)

/-- The artifact loop at the end of `main`: process artifacts in order; a
`sys.exit(1)` or an uncaught exception aborts the remaining ones. -/
def processList (o : Oracle) (bin version : String) : List String → Sys → Sys × Outcome
  | [], s => (s, .ok)
  | a :: rest, s =>
    match download_and_extract o s a bin version with
    | (s', .ok) => processList o bin version rest s'
    | (s', r) => (s', r)

/-- The state right after `print(BINARIES_DIR)`, `shutil.rmtree(BINARIES_DIR)`
and `BINARIES_DIR.mkdir(...)`: the binaries root exists and is empty. -/
def resetSys : Sys := ⟨FS.empty, [BINARIES_DIR_STR], []⟩

/-- `main` after argument validation, with `platform` already lowercased:
print the binaries dir, destructively reset it, look the platform up, and on
success run the artifact loop.  Exit code 0 only when every artifact
succeeded. -/
def mainGo (o : Oracle) (platform version : String) (fs0 : FS) : Sys × Nat :=
  let s0 : Sys := ⟨fs0, [BINARIES_DIR_STR], []⟩
  let s1 : Sys := ⟨FS.empty, s0.printed, s0.requested⟩
  let arts := (dictGet ARTIFACTS platform).getD []
  if arts = [] then
    (⟨s1.fs, s1.printed ++ ["Error: Unknown platform '" ++ platform ++ "'"], s1.requested⟩, 1)
  else
    match processList o ((dictGet BINARY_NAME platform).getD "") version arts s1 with
    | (s2, .ok) => (s2, 0)
    | (s2, _) => (s2, 1)

/-- `main` of `download_artifacts.py`.  `args` is `sys.argv[1:]`; the first
argument is lowercased, and a missing argument or an empty (falsy) value
prints the usage message and exits 1 before touching the filesystem. -/
def mainRun (o : Oracle) (args : List String) (fs0 : FS) : Sys × Nat :=
  match args with
  | [a1, a2] =>
    let platform := lowerStr a1
    if a2 = "" ∨ platform = "" then (⟨fs0, [usageMsg], []⟩, 1)
    else mainGo o platform a2 fs0
  | _ => (⟨fs0, [usageMsg], []⟩, 1)

/-! ## `packages/python/setup.py` — environment-variable configurator -/

/-- `PlatformSpecificWheel.get_tag`: take the base tag computed by
`bdist_wheel.get_tag`, override the platform component with `PLAT_NAME` when
that environment variable is set and non-empty (truthy), and force the
Python/ABI components to `py3`/`none`.  `env` is `os.environ.get("PLAT_NAME")`. -/
def PlatformSpecificWheel.get_tag (env : Option String) (base : String × String × String) :
    String × String × String :=
  let platform_tag :=
    match env with
    | some p => if p ≠ "" then p else base.2.2
    | none => base.2.2
  ("py3", "none", platform_tag)

/-- The `classifier_map` dict literal inside `get_platform_classifiers`. -/
def classifier_map : List (String × List String) :=
  [("manylinux2014_x86_64", ["Operating System :: POSIX :: Linux"]),
   ("manylinux2014_aarch64", ["Operating System :: POSIX :: Linux"]),
   ("win_amd64", ["Operating System :: Microsoft :: Windows"]),
   ("macosx_10_9_x86_64", ["Operating System :: MacOS"]),
   ("macosx_11_0_arm64", ["Operating System :: MacOS"])]

/-- Rendering of the `PLAT_NAME` value inside the `ValueError` message
(`None` when the variable is unset). -/
def platNameRepr (env : Option String) : String :=
  match env with
  | some p => p
  | none => "None"

/-- `get_platform_classifiers`: when `PLAT_NAME` is truthy and a key of
`classifier_map`, return the Python-3 classifier plus the mapped entry;
otherwise raise `ValueError` (the `Except.error` case). -/
def get_platform_classifiers (env : Option String) : Except String (List String) :=
  let raiseMsg := "Unsupported or missing PLAT_NAME: " ++ platNameRepr env
  match env with
  | some p =>
    if p ≠ "" then
      match dictGet classifier_map p with
      | some cs => .ok ["Programming Language :: Python :: 3", cs.headD ""]
      | none => .error raiseMsg
    else .error raiseMsg
  | none => .error raiseMsg

/-! ## `python-package/setup.py` — command-line configurator -/

/-- The `classifier_map` dict of `python-package/setup.py`. -/
def classifier_map_pkg : List (String × String) :=
  [("manylinux2014_x86_64", "Operating System :: POSIX :: Linux"),
   ("manylinux2014_aarch64", "Operating System :: POSIX :: Linux"),
   ("win_amd64", "Operating System :: Microsoft :: Windows"),
   ("macosx_10_9_x86_64", "Operating System :: MacOS"),
   ("macosx_11_0_arm64", "Operating System :: MacOS")]

/-- The `--plat-name` scan over `sys.argv`: the value following the first
`"--plat-name"` that has a successor. -/
def findPlatName : List String → Option String
  | "--plat-name" :: x :: _ => some x
  | _ :: rest => findPlatName rest
  | [] => none

/-- How a run of the `python-package/setup.py` script ends: `sys.exit` with a
code and the lines printed, or a call of `setuptools.setup` with the computed
version and classifier list. -/
inductive ScriptOut where
  | exited (code : Nat) (printed : List String)
  | setupCalled (version : String) (classifiers : List String)
deriving DecidableEq

/-- The usage text of `python-package/setup.py`. -/
def usagePkg : String :=
  "\nUsage: python setup.py bdist_wheel --plat-name <platform>\nThe PACKAGE_VERSION environment variable must be set to the desired version.\n\nExample:\n  PACKAGE_VERSION=0.5.9 python setup.py bdist_wheel --plat-name linux_x86_64\n"

/-- The top-level flow of `python-package/setup.py` after `pyproject.toml` is
loaded: require a truthy `PACKAGE_VERSION`, require a truthy `--plat-name`
value, look the classifier up, and exit 1 with a printed message on any
failure; otherwise call `setup` with the three classifiers. -/
def scriptPkg (envPackageVersion : Option String) (argv : List String) : ScriptOut :=
  let version := envPackageVersion.getD ""
  if version = "" then
    .exited 1 ["PACKAGE_VERSION environment variable is not set.", usagePkg]
  else
    match findPlatName argv with
    | none => .exited 1 ["Error: --plat-name argument is required", usagePkg]
    | some p =>
      if p = "" then .exited 1 ["Error: --plat-name argument is required", usagePkg]
      else
        match dictGet classifier_map_pkg p with
        | none => .exited 1 ["Unknown plat_name: " ++ p]
        | some c =>
          .setupCalled version
            ["Programming Language :: Python :: 3",
             "License :: OSI Approved :: MIT License", c]

/-! ## Basic facts about the path and string helpers -/

lemma splitSlash_ne_nil (l : List Char) : splitSlash l ≠ [] := by
  cases l with
  | nil => simp [splitSlash]
  | cons c cs =>
    simp only [splitSlash]
    split <;> simp

lemma memberComps_ne_nil (m : String) : memberComps m ≠ [] := by
  unfold memberComps
  simp [splitSlash_ne_nil]

lemma variantOf_cases (a : String) : variantOf a = "gpu" ∨ variantOf a = "cpu" := by
  unfold variantOf
  split <;> simp

lemma zipName_ne_variantOf (a v b : String) : zipName a v ≠ variantOf b := by
  intro h
  have hlen := congrArg String.length h
  have h1 : ("-" : String).length = 1 := rfl
  have h4 : (".zip" : String).length = 4 := rfl
  have hg : ("gpu" : String).length = 3 := rfl
  have hc : ("cpu" : String).length = 3 := rfl
  rcases variantOf_cases b with hb | hb <;>
    rw [hb] at hlen <;>
    simp only [zipName, String.length_append, h1, h4, hg, hc] at hlen <;> omega

lemma strictParents_mem {out : FPath} {comps : List String} {p : FPath}
    (h : p ∈ strictParents out comps) : ∃ t, t ≠ [] ∧ p = out ++ t := by
  unfold strictParents at h
  simp only [List.mem_map, List.mem_filter, List.mem_range] at h
  obtain ⟨k, ⟨hk, hk0⟩, rfl⟩ := h
  have hne : comps ≠ [] := by
    intro hc
    subst hc
    simp at hk
  refine ⟨comps.take k, fun hTake => ?_, rfl⟩
  rcases List.take_eq_nil_iff.mp hTake with h0 | h0
  · simp at hk0
    omega
  · exact hne h0

/-! ## Inversion lemmas for the filesystem primitives -/

lemma extractMember_some {fs : FS} {out : FPath} {m : String} {fs' : FS}
    (h : extractMember fs out m = some fs') :
    fs'.files = insert (out ++ memberComps m) fs.files ∧
    fs'.dirs = fs.dirs ∪ (strictParents out (memberComps m)).toFinset := by
  simp only [extractMember] at h
  split at h
  · simp at h
  · split at h
    · simp at h
    · simp only [Option.some.injEq] at h
      subst h
      exact ⟨rfl, rfl⟩

lemma renameFile_some {fs : FS} {src dst : FPath} {fs' : FS}
    (h : renameFile fs src dst = some fs') :
    fs'.files = insert dst (fs.files.erase src) ∧ fs'.dirs = fs.dirs := by
  simp only [renameFile] at h
  split at h
  · split at h
    · simp at h
    · simp only [Option.some.injEq] at h
      subst h
      exact ⟨rfl, rfl⟩
  · simp at h

/-! ## Behaviour of the extraction loop -/

lemma extractLoop_dirs_mono {out : FPath} {bin : String} {ms : List String} {fs : FS}
    {p : FPath} (hp : p ∈ fs.dirs) : p ∈ (extractLoop out bin ms fs).1.dirs := by
  induction ms generalizing fs with
  | nil => simpa [extractLoop] using hp
  | cons m ms ih =>
    by_cases hm : endsWithS m bin
    · rcases hEx : extractMember fs out m with _ | fs1
      · simpa [extractLoop, hm, hEx] using hp
      · have hd1 : p ∈ fs1.dirs := by
          rw [(extractMember_some hEx).2]
          exact Finset.mem_union_left _ hp
        rcases hRn : renameFile fs1 (out ++ memberComps m) (out ++ [bin]) with _ | fs2
        · simpa [extractLoop, hm, hEx, hRn] using hd1
        · have hd2 : p ∈ fs2.dirs := by
            rw [(renameFile_some hRn).2]
            exact hd1
          simpa [extractLoop, hm, hEx, hRn] using ih hd2
    · simpa [extractLoop, hm] using ih hp

lemma extractLoop_dirs_shape {out : FPath} {bin : String} {ms : List String} {fs : FS}
    {p : FPath} (hp : p ∈ (extractLoop out bin ms fs).1.dirs) :
    p ∈ fs.dirs ∨ ∃ t, t ≠ [] ∧ p = out ++ t := by
  induction ms generalizing fs with
  | nil => left; simpa [extractLoop] using hp
  | cons m ms ih =>
    by_cases hm : endsWithS m bin
    · rcases hEx : extractMember fs out m with _ | fs1
      · left; simpa [extractLoop, hm, hEx] using hp
      · rcases hRn : renameFile fs1 (out ++ memberComps m) (out ++ [bin]) with _ | fs2
        · simp only [extractLoop, hm, hEx, hRn, if_true] at hp
          rw [(extractMember_some hEx).2] at hp
          rcases Finset.mem_union.mp hp with h | h
          · exact Or.inl h
          · exact Or.inr (strictParents_mem (List.mem_toFinset.mp h))
        · simp only [extractLoop, hm, hEx, hRn, if_true] at hp
          rcases ih hp with h | h
          · rw [(renameFile_some hRn).2, (extractMember_some hEx).2] at h
            rcases Finset.mem_union.mp h with h2 | h2
            · exact Or.inl h2
            · exact Or.inr (strictParents_mem (List.mem_toFinset.mp h2))
          · exact Or.inr h
    · simp only [extractLoop, hm, Bool.false_eq_true, if_false] at hp
      exact ih hp

lemma extractLoop_files_shape {out : FPath} {bin : String} {ms : List String} {fs : FS}
    {p : FPath} (hp : p ∈ (extractLoop out bin ms fs).1.files) :
    p ∈ fs.files ∨ ∃ t, t ≠ [] ∧ p = out ++ t := by
  induction ms generalizing fs with
  | nil => left; simpa [extractLoop] using hp
  | cons m ms ih =>
    by_cases hm : endsWithS m bin
    · rcases hEx : extractMember fs out m with _ | fs1
      · left; simpa [extractLoop, hm, hEx] using hp
      · rcases hRn : renameFile fs1 (out ++ memberComps m) (out ++ [bin]) with _ | fs2
        · simp only [extractLoop, hm, hEx, hRn, if_true] at hp
          rw [(extractMember_some hEx).1] at hp
          rcases Finset.mem_insert.mp hp with h | h
          · exact Or.inr ⟨memberComps m, memberComps_ne_nil m, h⟩
          · exact Or.inl h
        · simp only [extractLoop, hm, hEx, hRn, if_true] at hp
          rcases ih hp with h | h
          · rw [(renameFile_some hRn).1] at h
            rcases Finset.mem_insert.mp h with h2 | h2
            · exact Or.inr ⟨[bin], by simp, h2⟩
            · rw [(extractMember_some hEx).1] at h2
              rcases Finset.mem_insert.mp (Finset.mem_of_mem_erase h2) with h3 | h3
              · exact Or.inr ⟨memberComps m, memberComps_ne_nil m, h3⟩
              · exact Or.inl h3
          · exact Or.inr h
    · simp only [extractLoop, hm, Bool.false_eq_true, if_false] at hp
      exact ih hp

lemma extractLoop_files_lower {out : FPath} {bin : String} {ms : List String} {fs : FS}
    {q : FPath} (hq : q ∈ fs.files) (hsh : ∀ t, q ≠ out ++ t) :
    q ∈ (extractLoop out bin ms fs).1.files := by
  induction ms generalizing fs with
  | nil => simpa [extractLoop] using hq
  | cons m ms ih =>
    by_cases hm : endsWithS m bin
    · rcases hEx : extractMember fs out m with _ | fs1
      · simpa [extractLoop, hm, hEx] using hq
      · have hq1 : q ∈ fs1.files := by
          rw [(extractMember_some hEx).1]
          exact Finset.mem_insert_of_mem hq
        rcases hRn : renameFile fs1 (out ++ memberComps m) (out ++ [bin]) with _ | fs2
        · simpa [extractLoop, hm, hEx, hRn] using hq1
        · have hq2 : q ∈ fs2.files := by
            rw [(renameFile_some hRn).1]
            exact Finset.mem_insert_of_mem
              (Finset.mem_erase.mpr ⟨hsh _, hq1⟩)
          simpa [extractLoop, hm, hEx, hRn] using ih hq2
    · simpa [extractLoop, hm] using ih hq

lemma extractLoop_ok_files_upper {out : FPath} {bin : String} {ms : List String} {fs : FS}
    (hok : (extractLoop out bin ms fs).2.2 = true) :
    (extractLoop out bin ms fs).1.files ⊆ insert (out ++ [bin]) fs.files := by
  induction ms generalizing fs with
  | nil =>
    intro x hx
    simp only [extractLoop] at hx
    exact Finset.mem_insert_of_mem hx
  | cons m ms ih =>
    by_cases hm : endsWithS m bin
    · rcases hEx : extractMember fs out m with _ | fs1
      · simp [extractLoop, hm, hEx] at hok
      · rcases hRn : renameFile fs1 (out ++ memberComps m) (out ++ [bin]) with _ | fs2
        · simp [extractLoop, hm, hEx, hRn] at hok
        · simp only [extractLoop, hm, hEx, hRn, if_true] at hok ⊢
          intro x hx
          have hx2 := ih hok hx
          rcases Finset.mem_insert.mp hx2 with h | h
          · exact h ▸ Finset.mem_insert_self _ _
          · rw [(renameFile_some hRn).1] at h
            rcases Finset.mem_insert.mp h with h2 | h2
            · exact h2 ▸ Finset.mem_insert_self _ _
            · have h3 := Finset.mem_of_mem_erase h2
              rw [(extractMember_some hEx).1] at h3
              rcases Finset.mem_insert.mp h3 with h4 | h4
              · exact absurd h4 (Finset.mem_erase.mp h2).1
              · exact Finset.mem_insert_of_mem h4
    · simp only [extractLoop, hm, Bool.false_eq_true, if_false] at hok ⊢
      exact ih hok

lemma extractLoop_ok_dst {out : FPath} {bin : String} {ms : List String} {fs : FS}
    (hok : (extractLoop out bin ms fs).2.2 = true)
    (hsrc : (out ++ [bin]) ∈ fs.files ∨ ∃ m ∈ ms, endsWithS m bin = true) :
    (out ++ [bin]) ∈ (extractLoop out bin ms fs).1.files := by
  induction ms generalizing fs with
  | nil =>
    rcases hsrc with h | h
    · simpa [extractLoop] using h
    · simp at h
  | cons m ms ih =>
    by_cases hm : endsWithS m bin
    · rcases hEx : extractMember fs out m with _ | fs1
      · simp [extractLoop, hm, hEx] at hok
      · rcases hRn : renameFile fs1 (out ++ memberComps m) (out ++ [bin]) with _ | fs2
        · simp [extractLoop, hm, hEx, hRn] at hok
        · simp only [extractLoop, hm, hEx, hRn, if_true] at hok ⊢
          refine ih hok (Or.inl ?_)
          rw [(renameFile_some hRn).1]
          exact Finset.mem_insert_self _ _
    · simp only [extractLoop, hm, Bool.false_eq_true, if_false] at hok ⊢
      refine ih hok ?_
      rcases hsrc with h | h
      · exact Or.inl h
      · rcases h with ⟨m', hm', hend⟩
        rcases List.mem_cons.mp hm' with rfl | hm2
        · exact absurd hend (by simpa using hm)
        · exact Or.inr ⟨m', hm2, hend⟩

/-! ## Behaviour of `download_and_extract` -/

lemma zip_not_under_variant (a v b : String) (t : FPath) :
    ([zipName a v] : FPath) ≠ variantOf b :: t := by
  intro h
  cases t with
  | nil =>
    simp only [List.cons.injEq, and_true] at h
    exact zipName_ne_variantOf a v b h
  | cons x xs =>
    have := congrArg List.length h
    simp at this

lemma dl_fail {o : Oracle} {s : Sys} {a bin v : String}
    (h : o.status (urlOf a v) ≠ 200) :
    download_and_extract o s a bin v =
      (⟨s.fs, (s.printed ++ ["Downloading " ++ urlOf a v]) ++ [failMsg a v (o.status (urlOf a v))],
        s.requested ++ [urlOf a v]⟩, .exit1) := by
  simp only [download_and_extract]
  rw [if_pos h]

lemma dl_requested (o : Oracle) (s : Sys) (a bin v : String) :
    (download_and_extract o s a bin v).1.requested = s.requested ++ [urlOf a v] := by
  simp only [download_and_extract]
  split
  · rfl
  · split <;> rfl

lemma dl_dirs_mono {o : Oracle} {s : Sys} {a bin v : String} {p : FPath}
    (hp : p ∈ s.fs.dirs) : p ∈ (download_and_extract o s a bin v).1.fs.dirs := by
  simp only [download_and_extract]
  split
  · exact hp
  · have h2 : p ∈ (⟨insert [zipName a v] s.fs.files,
        insert [variantOf a] s.fs.dirs⟩ : FS).dirs := Finset.mem_insert_of_mem hp
    split
    · exact extractLoop_dirs_mono h2
    · exact extractLoop_dirs_mono h2

lemma dl_dirs_shape {o : Oracle} {s : Sys} {a bin v : String} {p : FPath}
    (hp : p ∈ (download_and_extract o s a bin v).1.fs.dirs) :
    p ∈ s.fs.dirs ∨ ∃ t, p = variantOf a :: t := by
  revert hp
  simp only [download_and_extract]
  split
  · exact fun hp => Or.inl hp
  · have key : ∀ hp : p ∈ (extractLoop [variantOf a] bin (o.namelist (urlOf a v))
        ⟨insert [zipName a v] s.fs.files, insert [variantOf a] s.fs.dirs⟩).1.dirs,
        p ∈ s.fs.dirs ∨ ∃ t, p = variantOf a :: t := by
      intro hp
      rcases extractLoop_dirs_shape hp with h | ⟨t, _, rfl⟩
      · rcases Finset.mem_insert.mp h with h2 | h2
        · exact Or.inr ⟨[], h2⟩
        · exact Or.inl h2
      · exact Or.inr ⟨t, rfl⟩
    split
    · exact key
    · exact key

lemma dl_ok_variant_dir {o : Oracle} {s : Sys} {a bin v : String}
    (h : (download_and_extract o s a bin v).2 = .ok) :
    [variantOf a] ∈ (download_and_extract o s a bin v).1.fs.dirs := by
  revert h
  simp only [download_and_extract]
  split
  · intro h
    simp at h
  · have h2 : [variantOf a] ∈ (⟨insert [zipName a v] s.fs.files,
        insert [variantOf a] s.fs.dirs⟩ : FS).dirs := Finset.mem_insert_self _ _
    split
    · exact fun _ => extractLoop_dirs_mono h2
    · exact fun _ => extractLoop_dirs_mono h2

lemma dl_ok_zip_absent {o : Oracle} {s : Sys} {a bin v : String}
    (h : (download_and_extract o s a bin v).2 = .ok) :
    [zipName a v] ∉ (download_and_extract o s a bin v).1.fs.files := by
  revert h
  simp only [download_and_extract]
  split
  · intro h
    simp at h
  · split
    · exact fun _ => Finset.not_mem_erase _ _
    · intro h
      simp at h

lemma dl_exn_zip_present {o : Oracle} {s : Sys} {a bin v : String}
    (h : (download_and_extract o s a bin v).2 = .exn) :
    [zipName a v] ∈ (download_and_extract o s a bin v).1.fs.files := by
  revert h
  simp only [download_and_extract]
  split
  · intro h
    simp at h
  · split
    · intro h
      simp at h
    · intro _
      exact extractLoop_files_lower (Finset.mem_insert_self _ _)
        (fun t => zip_not_under_variant a v a t)

lemma dl_ok_dst_mem {o : Oracle} {s : Sys} {a bin v : String}
    (h : (download_and_extract o s a bin v).2 = .ok)
    (hm : ∃ m ∈ o.namelist (urlOf a v), endsWithS m bin = true) :
    (variantOf a :: [bin]) ∈ (download_and_extract o s a bin v).1.fs.files := by
  revert h
  simp only [download_and_extract]
  split
  · intro h
    simp at h
  · split
    · intro _
      refine Finset.mem_erase.mpr ⟨?_, extractLoop_ok_dst (by assumption) (Or.inr hm)⟩
      intro hEq
      have := congrArg List.length hEq
      simp at this
    · intro h
      simp at h

lemma dl_ok_files_upper {o : Oracle} {s : Sys} {a bin v : String}
    (h : (download_and_extract o s a bin v).2 = .ok) :
    (download_and_extract o s a bin v).1.fs.files ⊆
      insert (variantOf a :: [bin]) s.fs.files := by
  revert h
  simp only [download_and_extract]
  split
  · intro h
    simp at h
  · split
    · intro _ x hx
      have hx1 := Finset.mem_of_mem_erase hx
      have hxne := (Finset.mem_erase.mp hx).1
      have hx2 := extractLoop_ok_files_upper (by assumption) hx1
      rcases Finset.mem_insert.mp hx2 with h2 | h2
      · exact h2 ▸ Finset.mem_insert_self _ _
      · rcases Finset.mem_insert.mp h2 with h3 | h3
        · exact absurd h3 hxne
        · exact Finset.mem_insert_of_mem h3
    · intro h
      simp at h

lemma dl_files_lower {o : Oracle} {s : Sys} {a bin v : String} {q : FPath}
    (hq : q ∈ s.fs.files) (hsh : ∀ t, q ≠ variantOf a :: t) (hz : q ≠ [zipName a v]) :
    q ∈ (download_and_extract o s a bin v).1.fs.files := by
  simp only [download_and_extract]
  split
  · exact hq
  · have hq2 : q ∈ (extractLoop [variantOf a] bin (o.namelist (urlOf a v))
        ⟨insert [zipName a v] s.fs.files, insert [variantOf a] s.fs.dirs⟩).1.files :=
      extractLoop_files_lower (Finset.mem_insert_of_mem hq) hsh
    split
    · exact Finset.mem_erase.mpr ⟨hz, hq2⟩
    · exact hq2

/-! ## Behaviour of the artifact loop -/

lemma processList_append (o : Oracle) (bin v : String) (l1 l2 : List String) (s : Sys) :
    processList o bin v (l1 ++ l2) s =
      match processList o bin v l1 s with
      | (s', .ok) => processList o bin v l2 s'
      | (s', r) => (s', r) := by
  induction l1 generalizing s with
  | nil => simp [processList]
  | cons a l1 ih =>
    simp only [List.cons_append, processList]
    rcases hd : download_and_extract o s a bin v with ⟨s1, r⟩
    cases r
    · exact ih s1
    · rfl
    · rfl

lemma processList_cons_ok {o : Oracle} {bin v a : String} {l : List String} {s s' : Sys}
    (h : processList o bin v (a :: l) s = (s', .ok)) :
    ∃ s1, download_and_extract o s a bin v = (s1, .ok) ∧
      processList o bin v l s1 = (s', .ok) := by
  rw [processList] at h
  rcases hd : download_and_extract o s a bin v with ⟨s1, r⟩
  rw [hd] at h
  cases r
  · exact ⟨s1, rfl, h⟩
  · simp at h
  · simp at h

lemma processList_ok_requested {o : Oracle} {bin v : String} {l : List String} {s : Sys}
    (h : (processList o bin v l s).2 = .ok) :
    (processList o bin v l s).1.requested =
      s.requested ++ l.map (fun a => urlOf a v) := by
  induction l generalizing s with
  | nil => simp [processList]
  | cons a l ih =>
    rw [processList] at h ⊢
    rcases hd : download_and_extract o s a bin v with ⟨s1, r⟩
    rw [hd] at h
    have hreq : s1.requested = s.requested ++ [urlOf a v] := by
      have := dl_requested o s a bin v
      rw [hd] at this
      exact this
    cases r
    · have h' : (processList o bin v l s1).2 = Outcome.ok := h
      show (processList o bin v l s1).1.requested = _
      rw [ih h', hreq]
      simp
    · exact Outcome.noConfusion (h : Outcome.exit1 = Outcome.ok)
    · exact Outcome.noConfusion (h : Outcome.exn = Outcome.ok)

lemma processList_dirs_shape {o : Oracle} {bin v : String} {l : List String} {s : Sys}
    {p : FPath} (hp : p ∈ (processList o bin v l s).1.fs.dirs) :
    p ∈ s.fs.dirs ∨ ∃ a ∈ l, ∃ t, p = variantOf a :: t := by
  induction l generalizing s with
  | nil =>
    left
    simpa [processList] using hp
  | cons a l ih =>
    rw [processList] at hp
    rcases hd : download_and_extract o s a bin v with ⟨s1, r⟩
    rw [hd] at hp
    have hshape : p ∈ s1.fs.dirs → p ∈ s.fs.dirs ∨ ∃ t, p = variantOf a :: t := by
      intro h1
      have := @dl_dirs_shape o s a bin v p
      rw [hd] at this
      exact this h1
    cases r
    · rcases ih hp with h | ⟨a', ha', t, rfl⟩
      · rcases hshape h with h2 | ⟨t, rfl⟩
        · exact Or.inl h2
        · exact Or.inr ⟨a, List.mem_cons_self a l, t, rfl⟩
      · exact Or.inr ⟨a', List.mem_cons_of_mem a ha', t, rfl⟩
    · rcases hshape hp with h2 | ⟨t, rfl⟩
      · exact Or.inl h2
      · exact Or.inr ⟨a, List.mem_cons_self a l, t, rfl⟩
    · rcases hshape hp with h2 | ⟨t, rfl⟩
      · exact Or.inl h2
      · exact Or.inr ⟨a, List.mem_cons_self a l, t, rfl⟩

lemma processList_dirs_mono {o : Oracle} {bin v : String} {l : List String} {s : Sys}
    {p : FPath} (hp : p ∈ s.fs.dirs) : p ∈ (processList o bin v l s).1.fs.dirs := by
  induction l generalizing s with
  | nil => simpa [processList] using hp
  | cons a l ih =>
    rw [processList]
    rcases hd : download_and_extract o s a bin v with ⟨s1, r⟩
    have h1 : p ∈ s1.fs.dirs := by
      have := @dl_dirs_mono o s a bin v p hp
      rw [hd] at this
      exact this
    cases r
    · exact ih h1
    · exact h1
    · exact h1

lemma processList_files_lower {o : Oracle} {bin v : String} {l : List String} {s : Sys}
    {q : FPath} (hq : q ∈ s.fs.files)
    (hsh : ∀ a ∈ l, ∀ t, q ≠ variantOf a :: t)
    (hz : ∀ a ∈ l, q ≠ [zipName a v]) :
    q ∈ (processList o bin v l s).1.fs.files := by
  induction l generalizing s with
  | nil => simpa [processList] using hq
  | cons a l ih =>
    rw [processList]
    rcases hd : download_and_extract o s a bin v with ⟨s1, r⟩
    have h1 : q ∈ s1.fs.files := by
      have := @dl_files_lower o s a bin v q hq
        (hsh a (List.mem_cons_self a l)) (hz a (List.mem_cons_self a l))
      rw [hd] at this
      exact this
    cases r
    · exact ih h1 (fun a' ha' => hsh a' (List.mem_cons_of_mem a ha'))
        (fun a' ha' => hz a' (List.mem_cons_of_mem a ha'))
    · exact h1
    · exact h1

/-! ## Behaviour of `main` -/

lemma known_ne_empty {key : String} (h : key ∈ knownPlatforms) : key ≠ "" := by
  simp only [knownPlatforms, List.mem_cons, List.not_mem_nil, or_false] at h
  rcases h with rfl | rfl | rfl | rfl | rfl <;> decide

lemma lowerStr_known {key : String} (h : key ∈ knownPlatforms) : lowerStr key = key := by
  simp only [knownPlatforms, List.mem_cons, List.not_mem_nil, or_false] at h
  rcases h with rfl | rfl | rfl | rfl | rfl <;> decide

lemma mainRun_known {o : Oracle} {key v : String} {fs0 : FS}
    (hkey : key ∈ knownPlatforms) (hv : v ≠ "") :
    mainRun o [key, v] fs0 = mainGo o key v fs0 := by
  have h1 := lowerStr_known hkey
  have h2 := known_ne_empty hkey
  simp only [mainRun]
  rw [h1]
  rw [if_neg (by simp [hv, h2])]

lemma mainGo_indep (o : Oracle) (p v : String) (fsA fsB : FS) :
    mainGo o p v fsA = mainGo o p v fsB := rfl

lemma mainGo_known {o : Oracle} {p v : String} {fs0 : FS}
    (h : (dictGet ARTIFACTS p).getD [] ≠ []) :
    mainGo o p v fs0 =
      match processList o ((dictGet BINARY_NAME p).getD "") v
          ((dictGet ARTIFACTS p).getD []) resetSys with
      | (s2, Outcome.ok) => (s2, 0)
      | (s2, _) => (s2, 1) := by
  simp only [mainGo]
  rw [if_neg h]
  rfl

lemma mainGo_code0 {o : Oracle} {p v : String} {fs0 : FS}
    (h : (dictGet ARTIFACTS p).getD [] ≠ []) (hc : (mainGo o p v fs0).2 = 0) :
    (processList o ((dictGet BINARY_NAME p).getD "") v
        ((dictGet ARTIFACTS p).getD []) resetSys).2 = Outcome.ok ∧
    (mainGo o p v fs0).1 =
      (processList o ((dictGet BINARY_NAME p).getD "") v
        ((dictGet ARTIFACTS p).getD []) resetSys).1 := by
  rw [mainGo_known h] at hc ⊢
  rcases hp : processList o ((dictGet BINARY_NAME p).getD "") v
      ((dictGet ARTIFACTS p).getD []) resetSys with ⟨s2, r⟩
  rw [hp] at hc
  cases r
  · exact ⟨rfl, rfl⟩
  · exact absurd (hc : (1 : Nat) = 0) one_ne_zero
  · exact absurd (hc : (1 : Nat) = 0) one_ne_zero

/-! ## Concrete oracles used by the witnesses and counterexamples -/

/-- Oracle answering 200 everywhere and serving an archive with the given
member list at every URL. -/
def allOk (members : List String) : Oracle := ⟨fun _ => 200, fun _ => members⟩

/-- A pre-existing binaries directory with stale content from an earlier run. -/
def staleFS : FS := ⟨{["cpu", "old.so"]}, {["cpu"], ["junk"]}⟩

/-- Oracle that 404s exactly on the Linux x86-64 GPU artifact of version 1.0. -/
def o404gpu : Oracle :=
  ⟨fun u => if u = urlOf "ai-linux-gpu-x86_64" "1.0" then 404 else 200, fun _ => ["ai.so"]⟩

/-- Oracle serving an archive whose only entry nests below a directory named
like the binary itself. -/
def oBadNest : Oracle := ⟨fun _ => 200, fun _ => ["ai.so/sub/ai.so"]⟩

/-! ## Claim C2 -/

/-- C2: for every invocation of the fetcher with a known platform (and a
non-empty version), the binaries root is destructively reset before any
artifact is processed, so the run's result does not depend on the initial
contents of the binaries root; consequently running the fetcher twice in
succession leaves exactly the state of the second run from an empty root,
with no stale files from the first run. -/
theorem C2_destructive_reset (o o2 : Oracle) (key v : String) (args2 : List String)
    (fs0 fs1 fs2 : FS) (hkey : key ∈ knownPlatforms) (hv : v ≠ "") :
    mainRun o [key, v] fs1 = mainRun o [key, v] fs2 ∧
    mainRun o [key, v] ((mainRun o2 args2 fs0).1.fs) = mainRun o [key, v] FS.empty := by
  have h1 : ∀ fsA fsB : FS, mainRun o [key, v] fsA = mainRun o [key, v] fsB := by
    intro fsA fsB
    rw [mainRun_known hkey hv, mainRun_known hkey hv, mainGo_indep]
  exact ⟨h1 _ _, h1 _ _⟩

/-- Witness for C2 at the Windows platform with a stale pre-existing binaries
directory. -/
theorem C2_destructive_reset_witness :
    mainRun (allOk ["ai.dll"]) ["win_amd64", "1.0"] staleFS
      = mainRun (allOk ["ai.dll"]) ["win_amd64", "1.0"] FS.empty ∧
    mainRun (allOk ["ai.dll"]) ["win_amd64", "1.0"]
        ((mainRun (allOk ["ai.dll"]) ["win_amd64", "1.0"] staleFS).1.fs)
      = mainRun (allOk ["ai.dll"]) ["win_amd64", "1.0"] FS.empty :=
  C2_destructive_reset (allOk ["ai.dll"]) (allOk ["ai.dll"]) "win_amd64" "1.0"
    ["win_amd64", "1.0"] staleFS staleFS FS.empty (by decide) (by decide)

/-! ## Claim C9 -/

/-- C9: invoking the fetcher with two arguments whose (lowercased) platform
identifier is unknown still destructively resets the binaries root before the
lookup fails: the run exits 1 with the unknown-platform message, and the
binaries root is left empty regardless of its pre-existing contents. -/
theorem C9_reset_before_unknown_platform (o : Oracle) (fs0 : FS) (p v : String)
    (hp : lowerStr p ≠ "") (hv : v ≠ "")
    (hunk : dictGet ARTIFACTS (lowerStr p) = none) :
    (mainRun o [p, v] fs0).2 = 1 ∧
    (mainRun o [p, v] fs0).1.fs = FS.empty ∧
    ("Error: Unknown platform '" ++ lowerStr p ++ "'") ∈ (mainRun o [p, v] fs0).1.printed := by
  simp only [mainRun]
  rw [if_neg (by simp [hv, hp])]
  simp only [mainGo]
  rw [hunk]
  simp

/-- Witness for C9: an unknown platform with stale pre-existing content gets
wiped before the failing lookup. -/
theorem C9_reset_before_unknown_platform_witness :
    (mainRun (allOk []) ["freebsd_x86_64", "1.0"] staleFS).2 = 1 ∧
    (mainRun (allOk []) ["freebsd_x86_64", "1.0"] staleFS).1.fs = FS.empty ∧
    ("Error: Unknown platform '" ++ lowerStr "freebsd_x86_64" ++ "'")
      ∈ (mainRun (allOk []) ["freebsd_x86_64", "1.0"] staleFS).1.printed :=
  C9_reset_before_unknown_platform (allOk []) staleFS "freebsd_x86_64" "1.0"
    (by decide) (by decide) (by decide)

/-! ## Claim C10 -/

/-- C10: the fetcher lowercases its first argument before the table lookup, so
any spelling that lowercases to a known platform identifier behaves exactly
like the lowercase spelling, and (for a non-empty version) the run proceeds
with the version argument passed through verbatim. -/
theorem C10_lowercase_platform (o : Oracle) (fs0 : FS) (s key v : String)
    (hkey : key ∈ knownPlatforms) (hlow : lowerStr s = key) :
    mainRun o [s, v] fs0 = mainRun o [key, v] fs0 ∧
    (v ≠ "" → mainRun o [s, v] fs0 = mainGo o key v fs0) := by
  have hkl : lowerStr key = key := lowerStr_known hkey
  have hne : key ≠ "" := known_ne_empty hkey
  constructor
  · simp only [mainRun]
    rw [hlow, hkl]
  · intro hv
    simp only [mainRun]
    rw [hlow]
    rw [if_neg (by simp [hv, hne])]

/-- Witness for C10: the spelling `WIN_AMD64` behaves exactly like
`win_amd64`. -/
theorem C10_lowercase_platform_witness :
    mainRun (allOk ["ai.dll"]) ["WIN_AMD64", "1.0"] FS.empty
      = mainRun (allOk ["ai.dll"]) ["win_amd64", "1.0"] FS.empty ∧
    mainRun (allOk ["ai.dll"]) ["WIN_AMD64", "1.0"] FS.empty
      = mainGo (allOk ["ai.dll"]) "win_amd64" "1.0" FS.empty := by
  have h := C10_lowercase_platform (allOk ["ai.dll"]) FS.empty "WIN_AMD64" "win_amd64" "1.0"
    (by decide) (by decide)
  exact ⟨h.1, h.2 (by decide)⟩

/-! ## Claim C6 -/

/-- C6: with `PLAT_NAME=manylinux2014_x86_64`, the environment-variable
configurator produces the wheel tag `py3`/`none`/`manylinux2014_x86_64`
(whatever base tag `bdist_wheel` computed), and a classifier list containing
`Operating System :: POSIX :: Linux`. -/
theorem C6_manylinux_tag_and_classifiers (base : String × String × String) :
    PlatformSpecificWheel.get_tag (some "manylinux2014_x86_64") base
      = ("py3", "none", "manylinux2014_x86_64") ∧
    get_platform_classifiers (some "manylinux2014_x86_64")
      = .ok ["Programming Language :: Python :: 3", "Operating System :: POSIX :: Linux"] ∧
    "Operating System :: POSIX :: Linux"
      ∈ ["Programming Language :: Python :: 3", "Operating System :: POSIX :: Linux"] := by
  refine ⟨?_, rfl, by decide⟩
  simp only [PlatformSpecificWheel.get_tag]
  rw [if_pos (by decide : ("manylinux2014_x86_64" : String) ≠ "")]

/-! ## Claim C5 -/

/-- Counterexample to C5 as stated: the identifier `WIN_AMD64` is not present
in the lookup table, yet invoking the fetcher with it issues network requests
and exits 0, because the argument is lowercased before the lookup. -/
theorem C5_counterexample :
    dictGet ARTIFACTS "WIN_AMD64" = none ∧
    (mainRun (allOk ["ai.dll"]) ["WIN_AMD64", "1.0"] FS.empty).2 = 0 ∧
    (mainRun (allOk ["ai.dll"]) ["WIN_AMD64", "1.0"] FS.empty).1.requested ≠ [] := by
  decide

/-- C5 amended: for every first argument whose **lowercased** form is not in
the lookup table, the fetcher prints an error and exits 1 without issuing any
network request. -/
theorem C5_amended_unknown_platform_no_request (o : Oracle) (fs0 : FS) (p v : String)
    (hunk : dictGet ARTIFACTS (lowerStr p) = none) :
    (mainRun o [p, v] fs0).2 = 1 ∧
    (mainRun o [p, v] fs0).1.requested = [] ∧
    (mainRun o [p, v] fs0).1.printed ≠ [] := by
  by_cases hguard : v = "" ∨ lowerStr p = ""
  · simp only [mainRun]
    rw [if_pos hguard]
    simp
  · simp only [mainRun]
    rw [if_neg hguard]
    simp only [mainGo]
    rw [hunk]
    simp

/-- Witness for the amended C5 at a platform absent from the table even after
lowercasing. -/
theorem C5_amended_unknown_platform_no_request_witness :
    (mainRun (allOk []) ["Solaris_SPARC", "1.0"] staleFS).2 = 1 ∧
    (mainRun (allOk []) ["Solaris_SPARC", "1.0"] staleFS).1.requested = [] ∧
    (mainRun (allOk []) ["Solaris_SPARC", "1.0"] staleFS).1.printed ≠ [] :=
  C5_amended_unknown_platform_no_request (allOk []) staleFS "Solaris_SPARC" "1.0" (by decide)

/-! ## Claim C7 -/

/-- Counterexample to C7 as stated: on a platform name absent from the
five-entry table, **both** configurator variants fail — the environment-variable
variant raises `ValueError`, and the command-line variant prints
`Unknown plat_name` and exits 1.  Neither variant silently omits the
classifier and continues. -/
theorem C7_counterexample :
    get_platform_classifiers (some "freebsd_13_x86_64")
      = .error "Unsupported or missing PLAT_NAME: freebsd_13_x86_64" ∧
    scriptPkg (some "1.0") ["setup.py", "bdist_wheel", "--plat-name", "freebsd_13_x86_64"]
      = .exited 1 ["Unknown plat_name: freebsd_13_x86_64"] :=
  ⟨rfl, rfl⟩

/-- C7 amended: on a platform name absent from the five-entry table, the
environment-variable variant fails with a descriptive raised `ValueError`, and
the command-line variant also fails, by printing `Unknown plat_name` and
exiting 1; neither variant silently omits the classifier and continues. -/
theorem C7_amended_both_variants_fail (p v : String)
    (h1 : dictGet classifier_map p = none)
    (h2 : dictGet classifier_map_pkg p = none)
    (hpe : p ≠ "") (hv : v ≠ "") :
    get_platform_classifiers (some p) = .error ("Unsupported or missing PLAT_NAME: " ++ p) ∧
    scriptPkg (some v) ["setup.py", "bdist_wheel", "--plat-name", p]
      = .exited 1 ["Unknown plat_name: " ++ p] := by
  constructor
  · simp only [get_platform_classifiers, platNameRepr]
    rw [if_pos hpe, h1]
  · simp only [scriptPkg, Option.getD_some]
    rw [if_neg hv]
    have hf : findPlatName ["setup.py", "bdist_wheel", "--plat-name", p] = some p := by
      simp [findPlatName]
    simp only [hf]
    rw [if_neg hpe]
    simp only [h2]

/-- Witness for the amended C7 at a concrete unknown platform name. -/
theorem C7_amended_both_variants_fail_witness :
    get_platform_classifiers (some "openbsd_7_amd64")
      = .error ("Unsupported or missing PLAT_NAME: " ++ "openbsd_7_amd64") ∧
    scriptPkg (some "2.1") ["setup.py", "bdist_wheel", "--plat-name", "openbsd_7_amd64"]
      = .exited 1 ["Unknown plat_name: " ++ "openbsd_7_amd64"] :=
  C7_amended_both_variants_fail "openbsd_7_amd64" "2.1"
    (by decide) (by decide) (by decide) (by decide)

/-! ## Claim C3 -/

/-- Counterexample to C3 as stated: the archive entry `ai.so/sub/ai.so` ends
with the expected binary name `ai.so` at a nested path, the download succeeds,
and the artifact is a non-GPU one — yet no file is placed at `cpu/ai.so`:
extraction creates the directory `cpu/ai.so`, and the subsequent rename of the
extracted file onto that existing directory raises, crashing the run. -/
theorem C3_counterexample :
    endsWithS "ai.so/sub/ai.so" "ai.so" = true ∧
    normalMember "ai.so/sub/ai.so" = true ∧
    hasSub "gpu".data "ai-linux-cpu-x86_64".data = false ∧
    oBadNest.status (urlOf "ai-linux-cpu-x86_64" "1.0") = 200 ∧
    oBadNest.namelist (urlOf "ai-linux-cpu-x86_64" "1.0") = ["ai.so/sub/ai.so"] ∧
    (download_and_extract oBadNest resetSys "ai-linux-cpu-x86_64" "ai.so" "1.0").2
      = Outcome.exn ∧
    ["cpu", "ai.so"] ∉
      (download_and_extract oBadNest resetSys "ai-linux-cpu-x86_64" "ai.so" "1.0").1.fs.files ∧
    ["cpu", "ai.so"] ∈
      (download_and_extract oBadNest resetSys "ai-linux-cpu-x86_64" "ai.so" "1.0").1.fs.dirs := by
  decide

/-- C3 amended: for a non-GPU artifact whose archive (with normalized entry
paths) contains at least one entry ending in the platform's binary name, the
extraction step places that file at `cpu/<binary_name>` **provided the
extraction loop completes without an exception**; an entry nested below a
directory component that collides with an already-placed file or with the
target name itself (e.g. `ai.so/sub/ai.so`) makes the loop raise instead, and
no file is placed. -/
theorem C3_amended_extract_places_binary (o : Oracle) (s : Sys) (a bin v : String)
    (hgpu : hasSub "gpu".data a.data = false)
    (hnorm : ∀ m ∈ o.namelist (urlOf a v), normalMember m = true)
    (hmatch : ∃ m ∈ o.namelist (urlOf a v), endsWithS m bin = true)
    (hok : (download_and_extract o s a bin v).2 = Outcome.ok) :
    ["cpu", bin] ∈ (download_and_extract o s a bin v).1.fs.files := by
  have hv : variantOf a = "cpu" := by
    unfold variantOf
    rw [hgpu]
    simp
  have h := dl_ok_dst_mem hok hmatch
  rw [hv] at h
  exact h

/-- Witness for the amended C3: a deeply nested entry `deep/nested/ai.so` is
extracted and placed at `cpu/ai.so`. -/
theorem C3_amended_extract_places_binary_witness :
    ["cpu", "ai.so"] ∈
      (download_and_extract (allOk ["deep/nested/ai.so"]) resetSys
        "ai-linux-cpu-x86_64" "ai.so" "1.0").1.fs.files :=
  C3_amended_extract_places_binary (allOk ["deep/nested/ai.so"]) resetSys
    "ai-linux-cpu-x86_64" "ai.so" "1.0" (by decide) (by decide)
    ⟨"deep/nested/ai.so", by decide, by decide⟩ (by decide)

/-! ## Claim C4 -/

/-- Counterexample to C4 as stated: a run in which the rename of an archive
member fails partway through the loop (entry `ai.so/sub/ai.so`) propagates the
exception, and the downloaded archive is **not** deleted — it is still on disk
in the final state. -/
theorem C4_counterexample :
    (download_and_extract oBadNest resetSys "ai-linux-cpu-x86_64" "ai.so" "1.0").2
      = Outcome.exn ∧
    [zipName "ai-linux-cpu-x86_64" "1.0"] ∈
      (download_and_extract oBadNest resetSys "ai-linux-cpu-x86_64" "ai.so" "1.0").1.fs.files := by
  decide

/-- C4 amended: after a successful download, the archive is deleted exactly
when the extraction loop completes without an exception; when the extraction
or rename of some member raises, the exception propagates past the deletion
statement and the archive file is left on disk (in addition to the early
process exit on HTTP failure, on which the archive is never written). -/
theorem C4_amended_zip_deleted_iff_loop_completes (o : Oracle) (s : Sys) (a bin v : String) :
    ((download_and_extract o s a bin v).2 = Outcome.ok →
      [zipName a v] ∉ (download_and_extract o s a bin v).1.fs.files) ∧
    ((download_and_extract o s a bin v).2 = Outcome.exn →
      [zipName a v] ∈ (download_and_extract o s a bin v).1.fs.files) :=
  ⟨dl_ok_zip_absent, dl_exn_zip_present⟩

/-- Witness for the amended C4: a clean run deletes the archive; the crashing
run of the counterexample oracle leaves it on disk. -/
theorem C4_amended_zip_deleted_iff_loop_completes_witness :
    ([zipName "ai-linux-cpu-x86_64" "1.0"] ∉
      (download_and_extract (allOk ["ai.so"]) resetSys
        "ai-linux-cpu-x86_64" "ai.so" "1.0").1.fs.files) ∧
    ([zipName "ai-linux-cpu-x86_64" "1.0"] ∈
      (download_and_extract oBadNest resetSys
        "ai-linux-cpu-x86_64" "ai.so" "1.0").1.fs.files) :=
  ⟨(C4_amended_zip_deleted_iff_loop_completes (allOk ["ai.so"]) resetSys
      "ai-linux-cpu-x86_64" "ai.so" "1.0").1 (by decide),
   (C4_amended_zip_deleted_iff_loop_completes oBadNest resetSys
      "ai-linux-cpu-x86_64" "ai.so" "1.0").2 (by decide)⟩

/-! ## Claim C1 -/

lemma pre_ne_two {x y a : String} {pre post : List String}
    (h : ([x, y] : List String) = pre ++ a :: post)
    (hxy : variantOf x ≠ variantOf y) :
    ∀ z ∈ pre, variantOf z ≠ variantOf a := by
  rcases pre with _ | ⟨p1, _ | ⟨p2, pre⟩⟩
  · simp
  · simp only [List.cons_append, List.nil_append, List.cons.injEq] at h
    obtain ⟨rfl, rfl, -⟩ := h
    intro z hz
    simp only [List.mem_singleton] at hz
    subst hz
    exact hxy
  · exfalso
    have hl := congrArg List.length h
    simp [List.length_append] at hl

lemma pre_ne_one {x a : String} {pre post : List String}
    (h : ([x] : List String) = pre ++ a :: post) :
    ∀ z ∈ pre, variantOf z ≠ variantOf a := by
  rcases pre with _ | ⟨p1, pre⟩
  · simp
  · exfalso
    have hl := congrArg List.length h
    simp [List.length_append] at hl

lemma pre_variant_ne {key : String} (hkey : key ∈ knownPlatforms)
    {pre post : List String} {a : String}
    (hsplit : (dictGet ARTIFACTS key).getD [] = pre ++ a :: post) :
    ∀ x ∈ pre, variantOf x ≠ variantOf a := by
  simp only [knownPlatforms, List.mem_cons, List.not_mem_nil, or_false] at hkey
  rcases hkey with rfl | rfl | rfl | rfl | rfl
  · exact pre_ne_two ((rfl :
      (dictGet ARTIFACTS "manylinux2014_x86_64").getD []
        = ["ai-linux-cpu-x86_64", "ai-linux-gpu-x86_64"]) ▸ hsplit) (by decide)
  · exact pre_ne_two ((rfl :
      (dictGet ARTIFACTS "manylinux2014_aarch64").getD []
        = ["ai-linux-cpu-arm64", "ai-linux-gpu-arm64"]) ▸ hsplit) (by decide)
  · exact pre_ne_two ((rfl :
      (dictGet ARTIFACTS "win_amd64").getD []
        = ["ai-windows-cpu-x86_64", "ai-windows-gpu-x86_64"]) ▸ hsplit) (by decide)
  · exact pre_ne_one ((rfl :
      (dictGet ARTIFACTS "macosx_10_9_x86_64").getD [] = ["ai-macos"]) ▸ hsplit)
  · exact pre_ne_one ((rfl :
      (dictGet ARTIFACTS "macosx_11_0_arm64").getD [] = ["ai-macos"]) ▸ hsplit)
/-- C1: for every artifact the fetcher reaches (all earlier artifacts of the
platform's list having completed), a non-200 HTTP status for that artifact
makes the process print the failure line and exit with code 1 immediately:
no request is issued for any remaining artifact (the request trace ends at the
failing URL), and the per-variant subdirectory for the failing artifact is not
created. -/
theorem C1_http_failure_aborts (o : Oracle) (fs0 : FS) (key v a : String)
    (pre post : List String)
    (hkey : key ∈ knownPlatforms) (hv : v ≠ "")
    (hsplit : (dictGet ARTIFACTS key).getD [] = pre ++ a :: post)
    (hpre : (processList o ((dictGet BINARY_NAME key).getD "") v pre resetSys).2 = Outcome.ok)
    (hfail : o.status (urlOf a v) ≠ 200) :
    (mainRun o [key, v] fs0).2 = 1 ∧
    (mainRun o [key, v] fs0).1.requested = pre.map (fun x => urlOf x v) ++ [urlOf a v] ∧
    failMsg a v (o.status (urlOf a v)) ∈ (mainRun o [key, v] fs0).1.printed ∧
    [variantOf a] ∉ (mainRun o [key, v] fs0).1.fs.dirs := by
  have harts : (dictGet ARTIFACTS key).getD [] ≠ [] := by
    rw [hsplit]
    simp
  rcases hp : processList o ((dictGet BINARY_NAME key).getD "") v pre resetSys with ⟨s1, r1⟩
  have hr1 : r1 = Outcome.ok := by
    rw [hp] at hpre
    exact hpre
  subst hr1
  have hstep : processList o ((dictGet BINARY_NAME key).getD "") v (a :: post) s1 =
      (⟨s1.fs,
        (s1.printed ++ ["Downloading " ++ urlOf a v]) ++ [failMsg a v (o.status (urlOf a v))],
        s1.requested ++ [urlOf a v]⟩, Outcome.exit1) := by
    rw [processList, dl_fail hfail]
  have hmain : mainGo o key v fs0 =
      (⟨s1.fs,
        (s1.printed ++ ["Downloading " ++ urlOf a v]) ++ [failMsg a v (o.status (urlOf a v))],
        s1.requested ++ [urlOf a v]⟩, 1) := by
    rw [mainGo_known harts, hsplit, processList_append, hp]
    show (match processList o ((dictGet BINARY_NAME key).getD "") v (a :: post) s1 with
      | (s2, Outcome.ok) => (s2, 0)
      | (s2, _) => (s2, 1)) = _
    rw [hstep]
  have hreq : s1.requested = pre.map (fun x => urlOf x v) := by
    have h2 := processList_ok_requested hpre
    rw [hp] at h2
    simpa [resetSys] using h2
  rw [mainRun_known hkey hv, hmain]
  refine ⟨rfl, by rw [hreq], by simp, ?_⟩
  intro hmem
  have hmem2 : [variantOf a] ∈
      (processList o ((dictGet BINARY_NAME key).getD "") v pre resetSys).1.fs.dirs := by
    rw [hp]
    exact hmem
  rcases processList_dirs_shape hmem2 with h | ⟨x, hx, t, ht⟩
  · simp [resetSys, FS.empty] at h
  · simp only [List.cons.injEq] at ht
    exact pre_variant_ne hkey hsplit x hx ht.1.symm

/-- Witness for C1: on Linux x86-64, the CPU artifact succeeds and the GPU
artifact 404s; the run exits 1, the request trace ends at the GPU URL, the
failure line is printed, and no `gpu/` subdirectory exists. -/
theorem C1_http_failure_aborts_witness :
    (mainRun o404gpu ["manylinux2014_x86_64", "1.0"] staleFS).2 = 1 ∧
    (mainRun o404gpu ["manylinux2014_x86_64", "1.0"] staleFS).1.requested
      = ["ai-linux-cpu-x86_64"].map (fun x => urlOf x "1.0")
          ++ [urlOf "ai-linux-gpu-x86_64" "1.0"] ∧
    failMsg "ai-linux-gpu-x86_64" "1.0"
        (o404gpu.status (urlOf "ai-linux-gpu-x86_64" "1.0"))
      ∈ (mainRun o404gpu ["manylinux2014_x86_64", "1.0"] staleFS).1.printed ∧
    [variantOf "ai-linux-gpu-x86_64"]
      ∉ (mainRun o404gpu ["manylinux2014_x86_64", "1.0"] staleFS).1.fs.dirs :=
  C1_http_failure_aborts o404gpu staleFS "manylinux2014_x86_64" "1.0"
    "ai-linux-gpu-x86_64" ["ai-linux-cpu-x86_64"] []
    (by decide) (by decide) (by decide) (by decide) (by decide)

/-! ## Claim C8 -/

lemma processList_nil_ok {o : Oracle} {bin v : String} {s1 s2 : Sys}
    (h : processList o bin v [] s1 = (s2, Outcome.ok)) : s1 = s2 := by
  rw [processList] at h
  exact congrArg Prod.fst h

lemma one_artifact_run {o : Oracle} {bin v a1 : String} {s2 : Sys}
    (hvar1 : variantOf a1 = "cpu")
    (h : processList o bin v [a1] resetSys = (s2, Outcome.ok))
    (hm1 : ∃ m ∈ o.namelist (urlOf a1 v), endsWithS m bin = true) :
    s2.fs.files = {["cpu", bin]} ∧ ["cpu"] ∈ s2.fs.dirs ∧ ["gpu"] ∉ s2.fs.dirs := by
  obtain ⟨s1, hd1, hrest⟩ := processList_cons_ok h
  rw [processList_nil_ok hrest] at hd1
  have hok : (download_and_extract o resetSys a1 bin v).2 = Outcome.ok := by rw [hd1]
  have hA : (["cpu", bin] : FPath) ∈ s2.fs.files := by
    have h2 := dl_ok_dst_mem hok hm1
    rw [hd1, hvar1] at h2
    exact h2
  have hup : s2.fs.files ⊆ {["cpu", bin]} := by
    have h2 := dl_ok_files_upper hok
    rw [hd1, hvar1] at h2
    intro x hx
    have h3 := h2 hx
    rcases Finset.mem_insert.mp h3 with h4 | h4
    · simp [h4]
    · simp [resetSys, FS.empty] at h4
  refine ⟨Finset.Subset.antisymm hup (Finset.singleton_subset_iff.mpr hA), ?_, ?_⟩
  · have h2 := dl_ok_variant_dir hok
    rw [hd1, hvar1] at h2
    exact h2
  · intro hmem
    have h2 : ["gpu"] ∈ (download_and_extract o resetSys a1 bin v).1.fs.dirs := by
      rw [hd1]
      exact hmem
    rcases dl_dirs_shape h2 with h3 | ⟨t, ht⟩
    · simp [resetSys, FS.empty] at h3
    · rw [hvar1] at ht
      obtain ⟨h4, -⟩ := List.cons.injEq _ _ _ _ |>.mp ht
      exact absurd h4 (by decide)

lemma two_artifact_run {o : Oracle} {bin v a1 a2 : String} {s2 : Sys}
    (hvar1 : variantOf a1 = "cpu") (hvar2 : variantOf a2 = "gpu")
    (h : processList o bin v [a1, a2] resetSys = (s2, Outcome.ok))
    (hm1 : ∃ m ∈ o.namelist (urlOf a1 v), endsWithS m bin = true)
    (hm2 : ∃ m ∈ o.namelist (urlOf a2 v), endsWithS m bin = true) :
    s2.fs.files = {["cpu", bin], ["gpu", bin]} ∧
    ["cpu"] ∈ s2.fs.dirs ∧ ["gpu"] ∈ s2.fs.dirs := by
  obtain ⟨s1, hd1, hrest⟩ := processList_cons_ok h
  obtain ⟨s2x, hd2, hrest2⟩ := processList_cons_ok hrest
  rw [processList_nil_ok hrest2] at hd2
  have hok1 : (download_and_extract o resetSys a1 bin v).2 = Outcome.ok := by rw [hd1]
  have hok2 : (download_and_extract o s1 a2 bin v).2 = Outcome.ok := by rw [hd2]
  have hA1 : (["cpu", bin] : FPath) ∈ s1.fs.files := by
    have h2 := dl_ok_dst_mem hok1 hm1
    rw [hd1, hvar1] at h2
    exact h2
  have hup1 : s1.fs.files ⊆ {["cpu", bin]} := by
    have h2 := dl_ok_files_upper hok1
    rw [hd1, hvar1] at h2
    intro x hx
    have h3 := h2 hx
    rcases Finset.mem_insert.mp h3 with h4 | h4
    · simp [h4]
    · simp [resetSys, FS.empty] at h4
  have hA2 : (["cpu", bin] : FPath) ∈ s2.fs.files := by
    have h2 := @dl_files_lower o s1 a2 bin v (["cpu", bin]) hA1
      (by
        intro t ht
        rw [hvar2] at ht
        obtain ⟨h4, -⟩ := List.cons.injEq _ _ _ _ |>.mp ht
        exact absurd h4 (by decide))
      (by
        intro ht
        have := congrArg List.length ht
        simp at this)
    rw [hd2] at h2
    exact h2
  have hB2 : (["gpu", bin] : FPath) ∈ s2.fs.files := by
    have h2 := dl_ok_dst_mem hok2 hm2
    rw [hd2, hvar2] at h2
    exact h2
  have hup2 : s2.fs.files ⊆ {["cpu", bin], ["gpu", bin]} := by
    have h2 := dl_ok_files_upper hok2
    rw [hd2, hvar2] at h2
    intro x hx
    have h3 := h2 hx
    rcases Finset.mem_insert.mp h3 with h4 | h4
    · simp [h4]
    · have h5 := hup1 h4
      rcases Finset.mem_singleton.mp h5 with rfl
      simp
  refine ⟨Finset.Subset.antisymm hup2 ?_, ?_, ?_⟩
  · exact Finset.insert_subset_iff.mpr ⟨hA2, Finset.singleton_subset_iff.mpr hB2⟩
  · have h2 := dl_ok_variant_dir hok1
    rw [hd1, hvar1] at h2
    have h3 := @dl_dirs_mono o s1 a2 bin v (["cpu"] : FPath) h2
    rw [hd2] at h3
    exact h3
  · have h2 := dl_ok_variant_dir hok2
    rw [hd2, hvar2] at h2
    exact h2

lemma C8_case_two (o : Oracle) (fs0 : FS) (key v a1 a2 bin : String)
    (hkey : key ∈ knownPlatforms)
    (earts : (dictGet ARTIFACTS key).getD [] = [a1, a2])
    (ebin : (dictGet BINARY_NAME key).getD "" = bin)
    (hvar1 : variantOf a1 = "cpu") (hvar2 : variantOf a2 = "gpu")
    (hv : v ≠ "") (hcode : (mainRun o [key, v] fs0).2 = 0)
    (hmatch : ∀ a ∈ (dictGet ARTIFACTS key).getD [],
      ∃ m ∈ o.namelist (urlOf a v), endsWithS m ((dictGet BINARY_NAME key).getD "") = true) :
    (mainRun o [key, v] fs0).1.fs.files = {["cpu", bin], ["gpu", bin]} ∧
    ["cpu"] ∈ (mainRun o [key, v] fs0).1.fs.dirs ∧
    ["gpu"] ∈ (mainRun o [key, v] fs0).1.fs.dirs := by
  rw [mainRun_known hkey hv] at hcode ⊢
  have harts : (dictGet ARTIFACTS key).getD [] ≠ [] := by
    rw [earts]
    simp
  obtain ⟨hpl, heq⟩ := mainGo_code0 harts hcode
  rw [earts, ebin] at hpl heq
  rw [heq]
  have hm1 := hmatch a1 (by rw [earts]; simp)
  have hm2 := hmatch a2 (by rw [earts]; simp)
  rw [ebin] at hm1 hm2
  rcases hp : processList o bin v [a1, a2] resetSys with ⟨s2, r⟩
  rw [hp] at hpl
  have hr : r = Outcome.ok := hpl
  subst hr
  obtain ⟨hf, hc, hg⟩ := two_artifact_run hvar1 hvar2 hp hm1 hm2
  exact ⟨hf, hc, hg⟩

lemma C8_case_one (o : Oracle) (fs0 : FS) (key v a1 bin : String)
    (hkey : key ∈ knownPlatforms)
    (earts : (dictGet ARTIFACTS key).getD [] = [a1])
    (ebin : (dictGet BINARY_NAME key).getD "" = bin)
    (hvar1 : variantOf a1 = "cpu")
    (hv : v ≠ "") (hcode : (mainRun o [key, v] fs0).2 = 0)
    (hmatch : ∀ a ∈ (dictGet ARTIFACTS key).getD [],
      ∃ m ∈ o.namelist (urlOf a v), endsWithS m ((dictGet BINARY_NAME key).getD "") = true) :
    (mainRun o [key, v] fs0).1.fs.files = {["cpu", bin]} ∧
    ["cpu"] ∈ (mainRun o [key, v] fs0).1.fs.dirs ∧
    ["gpu"] ∉ (mainRun o [key, v] fs0).1.fs.dirs := by
  rw [mainRun_known hkey hv] at hcode ⊢
  have harts : (dictGet ARTIFACTS key).getD [] ≠ [] := by
    rw [earts]
    simp
  obtain ⟨hpl, heq⟩ := mainGo_code0 harts hcode
  rw [earts, ebin] at hpl heq
  rw [heq]
  have hm1 := hmatch a1 (by rw [earts]; simp)
  rw [ebin] at hm1
  rcases hp : processList o bin v [a1] resetSys with ⟨s2, r⟩
  rw [hp] at hpl
  have hr : r = Outcome.ok := hpl
  subst hr
  obtain ⟨hf, hc, hg⟩ := one_artifact_run hvar1 hp hm1
  exact ⟨hf, hc, hg⟩

/-- C8 amended: for a fully successful run (exit code 0, every archive
containing its binary), the Linux and Windows platforms produce both a `cpu/`
and a `gpu/` subdirectory, each holding exactly one binary file named with the
platform's fixed binary name; the two macOS platforms have a single CPU
artifact, so only `cpu/` is produced (holding exactly one binary file), and no
`gpu/` subdirectory exists. -/
theorem C8_amended_success_layout (o : Oracle) (fs0 : FS) (key v : String)
    (hkey : key ∈ knownPlatforms) (hv : v ≠ "")
    (hcode : (mainRun o [key, v] fs0).2 = 0)
    (hmatch : ∀ a ∈ (dictGet ARTIFACTS key).getD [],
      ∃ m ∈ o.namelist (urlOf a v), endsWithS m ((dictGet BINARY_NAME key).getD "") = true) :
    (["cpu"] ∈ (mainRun o [key, v] fs0).1.fs.dirs ∧
      (mainRun o [key, v] fs0).1.fs.files.filter (fun p => p.head? = some "cpu")
        = {["cpu", (dictGet BINARY_NAME key).getD ""]}) ∧
    (key ∈ (["manylinux2014_x86_64", "manylinux2014_aarch64", "win_amd64"] : List String) →
      ["gpu"] ∈ (mainRun o [key, v] fs0).1.fs.dirs ∧
      (mainRun o [key, v] fs0).1.fs.files.filter (fun p => p.head? = some "gpu")
        = {["gpu", (dictGet BINARY_NAME key).getD ""]}) ∧
    (key ∈ (["macosx_10_9_x86_64", "macosx_11_0_arm64"] : List String) →
      ["gpu"] ∉ (mainRun o [key, v] fs0).1.fs.dirs ∧
      (mainRun o [key, v] fs0).1.fs.files.filter (fun p => p.head? = some "gpu") = ∅) := by
  have hkey5 := hkey
  simp only [knownPlatforms, List.mem_cons, List.not_mem_nil, or_false] at hkey5
  rcases hkey5 with rfl | rfl | rfl | rfl | rfl
  · obtain ⟨hf, hc, hg⟩ := C8_case_two o fs0 _ v "ai-linux-cpu-x86_64" "ai-linux-gpu-x86_64"
      "ai.so" hkey rfl rfl (by decide) (by decide) hv hcode hmatch
    refine ⟨⟨hc, ?_⟩, fun _ => ⟨hg, ?_⟩, fun hmem => absurd hmem (by decide)⟩
    · rw [hf]
      decide
    · rw [hf]
      decide
  · obtain ⟨hf, hc, hg⟩ := C8_case_two o fs0 _ v "ai-linux-cpu-arm64" "ai-linux-gpu-arm64"
      "ai.so" hkey rfl rfl (by decide) (by decide) hv hcode hmatch
    refine ⟨⟨hc, ?_⟩, fun _ => ⟨hg, ?_⟩, fun hmem => absurd hmem (by decide)⟩
    · rw [hf]
      decide
    · rw [hf]
      decide
  · obtain ⟨hf, hc, hg⟩ := C8_case_two o fs0 _ v "ai-windows-cpu-x86_64" "ai-windows-gpu-x86_64"
      "ai.dll" hkey rfl rfl (by decide) (by decide) hv hcode hmatch
    refine ⟨⟨hc, ?_⟩, fun _ => ⟨hg, ?_⟩, fun hmem => absurd hmem (by decide)⟩
    · rw [hf]
      decide
    · rw [hf]
      decide
  · obtain ⟨hf, hc, hg⟩ := C8_case_one o fs0 _ v "ai-macos" "ai.dylib" hkey rfl rfl
      (by decide) hv hcode hmatch
    refine ⟨⟨hc, ?_⟩, fun hmem => absurd hmem (by decide), fun _ => ⟨hg, ?_⟩⟩
    · rw [hf]
      decide
    · rw [hf]
      decide
  · obtain ⟨hf, hc, hg⟩ := C8_case_one o fs0 _ v "ai-macos" "ai.dylib" hkey rfl rfl
      (by decide) hv hcode hmatch
    refine ⟨⟨hc, ?_⟩, fun hmem => absurd hmem (by decide), fun _ => ⟨hg, ?_⟩⟩
    · rw [hf]
      decide
    · rw [hf]
      decide

/-- Counterexample to C8 as stated: `macosx_10_9_x86_64` is a known platform,
a fully successful run exits 0, yet no `gpu/` subdirectory exists — the macOS
platforms have a single artifact (`ai-macos`), classified as CPU. -/
theorem C8_counterexample :
    "macosx_10_9_x86_64" ∈ knownPlatforms ∧
    (mainRun (allOk ["ai.dylib"]) ["macosx_10_9_x86_64", "1.0"] FS.empty).2 = 0 ∧
    ["gpu"] ∉
      (mainRun (allOk ["ai.dylib"]) ["macosx_10_9_x86_64", "1.0"] FS.empty).1.fs.dirs := by
  decide

/-- Witness for the amended C8 at the Linux x86-64 platform. -/
theorem C8_amended_success_layout_witness :
    (["cpu"] ∈
        (mainRun (allOk ["ai.so"]) ["manylinux2014_x86_64", "1.0"] staleFS).1.fs.dirs ∧
      (mainRun (allOk ["ai.so"]) ["manylinux2014_x86_64", "1.0"] staleFS).1.fs.files.filter
          (fun p => p.head? = some "cpu")
        = {["cpu", (dictGet BINARY_NAME "manylinux2014_x86_64").getD ""]}) ∧
    ("manylinux2014_x86_64"
        ∈ (["manylinux2014_x86_64", "manylinux2014_aarch64", "win_amd64"] : List String) →
      ["gpu"] ∈
        (mainRun (allOk ["ai.so"]) ["manylinux2014_x86_64", "1.0"] staleFS).1.fs.dirs ∧
      (mainRun (allOk ["ai.so"]) ["manylinux2014_x86_64", "1.0"] staleFS).1.fs.files.filter
          (fun p => p.head? = some "gpu")
        = {["gpu", (dictGet BINARY_NAME "manylinux2014_x86_64").getD ""]}) ∧
    ("manylinux2014_x86_64"
        ∈ (["macosx_10_9_x86_64", "macosx_11_0_arm64"] : List String) →
      ["gpu"] ∉
        (mainRun (allOk ["ai.so"]) ["manylinux2014_x86_64", "1.0"] staleFS).1.fs.dirs ∧
      (mainRun (allOk ["ai.so"]) ["manylinux2014_x86_64", "1.0"] staleFS).1.fs.files.filter
          (fun p => p.head? = some "gpu") = ∅) :=
  C8_amended_success_layout (allOk ["ai.so"]) staleFS "manylinux2014_x86_64" "1.0"
    (by decide) (by decide) (by decide) (by decide)

end SA
